import Mathlib

/-!
Shallow embedding of the elysium-usv data-forwarding pipeline (Go) used to
check the natural-language specification against the code.

Strings are modelled as `List Char` (the code only manipulates ASCII data in
the places the claims touch), byte payloads as `List Nat`, Go maps with
string keys as association lists with Go-map update semantics (replace the
existing key, otherwise append), and external effects (Azure blob store, the
queues, S3, the audit file store, the clock) as explicit state passing with
boolean/`Except` oracles for the outcomes of remote calls.  The MD5 and
SHA-256 primitives come from Go's standard library (an external collaborator
of this repository), so they enter the embedding as function parameters of
type `Bytes → Str`.
-/

abbrev Str := List Char

abbrev Bytes := List Nat

/-- Convert a Lean string literal to the `List Char` model. -/
def strL (s : String) : Str := s.toList

/-- Go `strings.ToLower` restricted to ASCII (the only case the pipeline hits). -/
def goToLower (s : Str) : Str := s.map Char.toLower

/-- Go `strings.ToUpper` restricted to ASCII. -/
def goToUpper (s : Str) : Str := s.map Char.toUpper

/-- Go `strings.EqualFold` restricted to ASCII simple folding. -/
def eqFold (a b : Str) : Bool := goToLower a = goToLower b

/-- Whitespace class used by Go's `strings.TrimSpace` / `strings.Fields`
(ASCII subset). -/
def isSpaceGo (c : Char) : Bool :=
  c = ' ' || c = '\t' || c = '\n' || c = '\r' || c = '\x0b' || c = '\x0c'

/-- Go `strings.TrimSpace` (ASCII whitespace). -/
def trimSpaceGo (s : Str) : Str :=
  ((s.dropWhile isSpaceGo).reverse.dropWhile isSpaceGo).reverse

/-- Accumulator form of Go `strings.Fields`. -/
def fieldsAux : Str → Str → List Str
  | [], acc => if acc = [] then [] else [acc.reverse]
  | c :: rest, acc =>
    if isSpaceGo c then
      if acc = [] then fieldsAux rest [] else acc.reverse :: fieldsAux rest []
    else fieldsAux rest (c :: acc)

/-- Go `strings.Fields`: the whitespace-separated tokens of a string. -/
def fieldsGo (s : Str) : List Str := fieldsAux s []

/-- Go `strings.Trim(s, cutset)` for a single-character cutset. -/
def trimCharGo (c : Char) (s : Str) : Str :=
  ((s.dropWhile (· = c)).reverse.dropWhile (· = c)).reverse

/-- Fuel-indexed worker for `goSplit`; the fuel argument only serves
termination and is always sufficient at the call site. -/
def goSplitAux (sep : Str) : Nat → Str → Str → List Str
  | 0, s, acc => [acc.reverse ++ s]
  | fuel+1, s, acc =>
    match s with
    | [] => [acc.reverse]
    | c :: rest =>
      if sep.isPrefixOf (c :: rest) then
        acc.reverse :: goSplitAux sep fuel (List.drop sep.length (c :: rest)) []
      else
        goSplitAux sep fuel rest (c :: acc)

/-- Go `strings.Split(s, sep)` for the non-empty separators the code uses:
split around every non-overlapping occurrence of `sep`, left to right. -/
def goSplit (s sep : Str) : List Str :=
  if sep = [] then [s] else goSplitAux sep (s.length + 1) s []

/-- Does `pat` occur as a contiguous substring (Go `strings.Contains`)? -/
def containsSub (pat : Str) : Str → Bool
  | [] => pat.isEmpty
  | c :: rest => pat.isPrefixOf (c :: rest) || containsSub pat rest

/-- Go `path/filepath.Base` on slash-separated paths as the pipeline uses it:
empty path gives ".", otherwise trailing slashes are dropped and the last
path element is returned ("/" when nothing remains). -/
def baseNameGo (p : Str) : Str :=
  if p = [] then strL "." else
    let q := (p.reverse.dropWhile (· = '/')).reverse
    if q = [] then strL "/" else (q.reverse.takeWhile (· ≠ '/')).reverse

/-- First-match lookup in an association list: the exact (case-sensitive)
Go map read `m[k]`. -/
def assocGet {α : Type} : List (Str × α) → Str → Option α
  | [], _ => none
  | (k', v) :: rest, k => if k' = k then some v else assocGet rest k

/-- Go map assignment `m[k] = v`: replace the binding when the key exists,
otherwise append it. -/
def assocSet {α : Type} : List (Str × α) → Str → α → List (Str × α)
  | [], k, v => [(k, v)]
  | (k', v') :: rest, k, v =>
    if k' = k then (k, v) :: rest else (k', v') :: assocSet rest k v

/-- Remove a key from an association list. -/
def assocRemove {α : Type} : List (Str × α) → Str → List (Str × α)
  | [], _ => []
  | (k', v') :: rest, k =>
    if k' = k then assocRemove rest k else (k', v') :: assocRemove rest k

/-- Blob metadata: a Go `map[string]string` with the nil values already
dropped, rendered as an insertion-ordered association list. -/
abbrev Meta := List (Str × Str)

/-- First key matching case-insensitively, as the Go loops
`for k, v := range metadata { if strings.EqualFold(k, key) ... }` read it. -/
def assocGetFold (m : Meta) (k : Str) : Option Str :=
  match m with
  | [] => none
  | (k', v) :: rest => if eqFold k' k then some v else assocGetFold rest k

/-! ## Audit recorder (src/unnamed/part_017, package audit) -/

/-- One destruction certificate as `audit.AuditRecord`. -/
structure AuditRecord where
  id : Str
  blobName : Str
  operationType : Str
  s3Destination : Str
  deletionTime : Str
  certificateId : Str
deriving DecidableEq, Repr

/-- Lowercase hex digit. -/
def hexDigit (n : Nat) : Char :=
  if n < 10 then Char.ofNat (48 + n) else Char.ofNat (87 + n)

/-- Hex rendering of a natural number (empty on zero); fuel-indexed, 16
digits of fuel cover every value the code produces. -/
def toHexAux : Nat → Nat → Str
  | 0, _ => []
  | fuel+1, n => if n = 0 then [] else toHexAux fuel (n / 16) ++ [hexDigit (n % 16)]

/-- Go `fmt.Sprintf("%08x", n)` for `n < 2^32`. -/
def hexPad8 (n : Nat) : Str :=
  let h := toHexAux 16 n
  List.replicate (8 - h.length) '0' ++ h

/-- The `hashString` helper of the audit package: Go folds
`hash = 31*hash + int(s[i])` over the bytes in 64-bit two's-complement
arithmetic and then masks with `0xFFFFFFFF`; since 2^32 divides 2^64 this is
the fold taken modulo 2^32. -/
def hashStringGo (s : Str) : Nat :=
  (s.foldl (fun h c => (31 * h + c.toNat) % 2 ^ 64) 0) % 2 ^ 32

/-- `generateCertificateID`: `deletion-<formatted time>-<hash>`.  The clock
is external, so the formatted timestamp arrives as a string. -/
def certificateIDGo (timestampText : Str) (blobName : Str) : Str :=
  strL "deletion-" ++ timestampText ++ strL "-" ++ hexPad8 (hashStringGo blobName)

/-- The record `GenerateAuditCertificate` assembles for a deletion. -/
def mkAuditRecord (now blobName s3Destination : Str) : AuditRecord :=
  let certId := certificateIDGo now blobName
  { id := blobName ++ strL "_" ++ certId


    blobName := blobName
    operationType := strL "deletion"
    s3Destination := s3Destination
    deletionTime := now
    certificateId := certId }

/-! ## Cleanup worker (src/unnamed/part_013, CleanupWorker) -/

/-- Outcomes of the external calls a single cleanup attempt performs:
whether the audit record write (the filesystem part of
`GenerateAuditCertificate`) succeeds and whether the blob delete succeeds. -/
structure CleanEnv where
  certOk : Bool
  deleteOk : Bool
deriving DecidableEq, Repr

/-- The state a cleanup attempt touches: the local blob store (path to
metadata) and the persisted audit records. -/
structure CleanState where
  blobs : List (Str × Meta)
  certs : List AuditRecord
deriving DecidableEq, Repr

/-- `audit.GenerateAuditCertificate` as the cleanup worker calls it: append
the record on success, otherwise report the write failure. -/
def generateAuditCertificate (env : CleanEnv) (now : Str) (st : CleanState)
    (blobName s3Destination : Str) : Except Str CleanState :=
  if env.certOk then
    .ok { st with certs := st.certs ++ [mkAuditRecord now blobName s3Destination] }
  else .error (strL "failed to write audit record")

/-- `CleanupWorker.cleanupBlob`: read the blob's metadata, require the exact
lowercase key "transferstatus" to hold "transferred", read "s3destination"
(default "unknown"), write the audit certificate, then delete the blob.
Returns the error (if any) together with the state as left behind. -/
def cleanupBlob (env : CleanEnv) (now : Str) (st : CleanState) (blobName : Str) :
    Except Str Unit × CleanState :=
  match assocGet st.blobs blobName with
  | none => (.error (strL "failed to get blob properties"), st)
  | some meta =>
    let transferStatus := (assocGet meta (strL "transferstatus")).getD []
    if transferStatus = strL "transferred" then
      let s3Destination := (assocGet meta (strL "s3destination")).getD (strL "unknown")
      match generateAuditCertificate env now st blobName s3Destination with
      | .error e => (.error (strL "failed to generate audit certificate: " ++ e), st)
      | .ok st1 =>
        if env.deleteOk then (.ok (), { st1 with blobs := assocRemove st1.blobs blobName })
        else (.error (strL "failed to delete blob"), st1)
    else (.error (strL "blob has not been transferred yet"), st)

/-- The queue-message path of `processCleanupQueue` for one dequeued
message: attempt the cleanup; only on success is the queue message
acknowledged (second component collects acknowledged messages). -/
def cleanupQueueStep (env : CleanEnv) (now : Str) (acc : CleanState × List Str)
    (msg : Str) : CleanState × List Str :=
  match cleanupBlob env now acc.1 msg with
  | (.error _, st') => (st', acc.2)
  | (.ok _, st') => (st', acc.2 ++ [msg])

/-- The retention-expiry scan of `processExpiredBlobs` for one listed blob:
skip unless the exact lowercase key "transferstatus" holds "transferred";
`retentionExpired` stands for the clock comparison
`time.Since(lastModified) > retentionDays*24h`; an expired transferred blob
goes through `cleanupBlob` (failures are logged and skipped). -/
def expiredScanStep (env : CleanEnv) (now : Str) (retentionExpired : Bool)
    (st : CleanState) (blobName : Str) : CleanState :=
  match assocGet st.blobs blobName with
  | none => st
  | some meta =>
    let transferStatus := (assocGet meta (strL "transferstatus")).getD []
    if transferStatus = strL "transferred" then
      if retentionExpired then (cleanupBlob env now st blobName).2 else st
    else st

/-! ## Checksum engine and validation (src/internal/validation/checksum.go) -/

/-- `VerifyChecksum`'s algorithm dispatch and case-insensitive digest
comparison: MD5 and SHA256 (upper-cased label; the empty label defaults to
SHA256), every other label is rejected.  The digest primitives are Go
standard-library functions and enter as parameters. -/
def verifyChecksum (md5Hex sha256Hex : Bytes → Str) (data : Bytes)
    (expected algorithm : Str) : Except Str Bool :=
  if goToUpper algorithm = strL "MD5" then .ok (eqFold (md5Hex data) expected)
  else if goToUpper algorithm = strL "SHA256" then .ok (eqFold (sha256Hex data) expected)
  else if goToUpper algorithm = [] then .ok (eqFold (sha256Hex data) expected)
  else .error (strL "unsupported checksum algorithm: " ++ algorithm)

/-- The checksum lookup of `ValidateBlob`: the exact keys "checksum",
"Checksum", "CheckSum" in that order. -/
def checksumOf (meta : Meta) : Option Str :=
  match assocGet meta (strL "checksum") with
  | some c => some c
  | none =>
    match assocGet meta (strL "Checksum") with
    | some c => some c
    | none => assocGet meta (strL "CheckSum")

/-- The algorithm selection of `ValidateBlob`: "SHA256" unless the exact key
"checksumAlgorithm" (then "ChecksumAlgorithm") is present. -/
def algorithmOf (meta : Meta) : Str :=
  match assocGet meta (strL "checksumAlgorithm") with
  | some a => a
  | none =>
    match assocGet meta (strL "ChecksumAlgorithm") with
    | some a => a
    | none => strL "SHA256"

/-- `ValidateBlob`: find the expected checksum, pick the algorithm, verify,
and on a verification result (valid or invalid) write
"validationstatus"/"validationtimestamp" into the metadata; errors (missing
checksum, unsupported algorithm) leave the metadata unwritten. -/
def validateBlob (md5Hex sha256Hex : Bytes → Str) (ts : Str) (meta : Meta)
    (data : Bytes) : Except Str (Bool × Meta) :=
  match checksumOf meta with
  | none => .error (strL "checksum not found in blob metadata")
  | some expected =>
    match verifyChecksum md5Hex sha256Hex data expected (algorithmOf meta) with
    | .error e => .error e
    | .ok isValid =>
      let status := if isValid then strL "valid" else strL "invalid"
      .ok (isValid,
        assocSet (assocSet meta (strL "validationstatus") status)
          (strL "validationtimestamp") ts)

/-- The digest the engine would use for a given algorithm label, `none` when
the label is unsupported; mirrors the spec's wording for claim C2. -/
def goDigest (md5Hex sha256Hex : Bytes → Str) (algorithm : Str) (data : Bytes) :
    Option Str :=
  if goToUpper algorithm = strL "MD5" then some (md5Hex data)
  else if goToUpper algorithm = strL "SHA256" then some (sha256Hex data)
  else if goToUpper algorithm = [] then some (sha256Hex data)
  else none

/-! ## Validation worker (src/internal/worker/validation_worker.go) -/

/-- The queue effects of one validation message: which messages have been
acknowledged (deleted) and what sits on the transfer queue. -/
structure VQState where
  deleted : List Str
  transferQ : List Str
deriving DecidableEq, Repr

/-- One message of `processValidationQueue`: a validation error leaves the
message alone (it reappears after its visibility timeout); a completed
validation deletes the message (when the queue delete succeeds) and
enqueues a transfer message exactly for a valid result. -/
def validationQueueStep (vres : Except Str Bool) (deleteOk : Bool)
    (st : VQState) (msg : Str) : VQState :=
  match vres with
  | .error _ => st
  | .ok isValid =>
    if deleteOk then
      let st1 := { st with deleted := st.deleted ++ [msg] }
      if isValid then { st1 with transferQ := st1.transferQ ++ [msg] } else st1
    else st

/-- `processValidationQueue` over a dequeued batch, with the validation
outcome per path given by `vres`. -/
def processValidationQueue (vres : Str → Except Str Bool) (deleteOk : Bool)
    (st : VQState) (msgs : List Str) : VQState :=
  msgs.foldl (fun s m => validationQueueStep (vres m) deleteOk s m) st

/-! ## S3 gateway and transfer (src/internal/aws/s3client.go,
src/internal/transfer/transfer.go, src/unnamed/part_010) -/

/-- Outcomes of the remote (S3) calls one transfer performs: `uploadErr` is
a `PutObject` failure, `etagRaw` the raw `response.ETag`, `verifyInUpload`
the `VerifyObject` probe `UploadObject` itself runs, and `verifyAfter` the
second probe `TransferValidatedBlob` runs. -/
structure S3Env where
  uploadErr : Option Str
  etagRaw : Option Str
  verifyInUpload : Except Str Bool
  verifyAfter : Except Str Bool

/-- The state a transfer touches: local blob store, remote keys present,
and the cleanup queue. -/
structure TransState where
  blobs : List (Str × Meta)
  s3keys : List Str
  cleanupQ : List Str
deriving DecidableEq, Repr

/-- `aws.BuildObjectKey`: `<vesselId>/data/<filename>`. -/
def buildObjectKey (vesselID blobName : Str) : Str :=
  vesselID ++ strL "/data/" ++ blobName

/-- The quote-stripped ETag `UploadObject` extracts from the raw
`response.ETag` (empty when the service reports none). -/
def envETag (env : S3Env) : Str :=
  match env.etagRaw with
  | some raw => trimCharGo '"' raw
  | none => []

/-- `S3Client.UploadObject`: put the object, strip the surrounding quotes
from the reported ETag (empty when none is reported), then probe for the
object; verification failure is an error even though the object landed. -/
def uploadObject (env : S3Env) (s3keys : List Str) (key : Str) :
    Except Str Str × List Str :=
  match env.uploadErr with
  | some e => (.error (strL "failed to upload object: " ++ e), s3keys)
  | none =>
    let s3' := if key ∈ s3keys then s3keys else s3keys ++ [key]
    let eTag := envETag env
    match env.verifyInUpload with
    | .error _ => (.error (strL "upload succeeded but verification failed"), s3')
    | .ok false => (.error (strL "upload appeared to succeed but object not found in S3"), s3')
    | .ok true => (.ok eTag, s3')

/-- The vessel-id resolution of `TransferValidatedBlob` (lines 61-77):
metadata key "vesselid" (case-insensitively) first, else the first segment
of the blob path. -/
def transferVessel (meta : Meta) (blobName : Str) : Str :=
  let vesselID0 := (assocGetFold meta (strL "vesselid")).getD []
  if vesselID0 = [] then (goSplit blobName (strL "/")).headD [] else vesselID0

/-- The metadata write-back block of `TransferValidatedBlob` (lines
107-124): set "transferstatus", "transfertimestamp", "s3destination", and
"s3etag" only when the stripped ETag is non-empty. -/
def transferMetaUpdate (meta : Meta) (ts dest eTag : Str) : Meta :=
  let meta1 := assocSet meta (strL "transferstatus") (strL "transferred")
  let meta2 := assocSet meta1 (strL "transfertimestamp") ts
  let meta3 := assocSet meta2 (strL "s3destination") dest
  if eTag = [] then meta3 else assocSet meta3 (strL "s3etag") eTag

/-- `transfer.TransferValidatedBlob`: require (case-insensitively)
"validationstatus" = "valid"; resolve the vessel id (metadata first, else
the first path segment); upload to `<vesselId>/data/<filename>`; probe the
remote store again; then write back "transferstatus" = "transferred", the
transfer timestamp, "s3destination" = `<bucket>/<key>`, and "s3etag" when
the stripped ETag is non-empty.  Any failure before the metadata write
returns the error with the blob store untouched. -/
def transferValidatedBlob (env : S3Env) (bucket ts : Str) (st : TransState)
    (blobName : Str) : Except Str Unit × TransState :=
  match assocGet st.blobs blobName with
  | none => (.error (strL "failed to get blob info"), st)
  | some meta =>
    if (assocGetFold meta (strL "validationstatus")).getD [] = strL "valid" then
      let s3Key := buildObjectKey (transferVessel meta blobName) (baseNameGo blobName)
      match uploadObject env st.s3keys s3Key with
      | (.error e, s3') => (.error e, { st with s3keys := s3' })
      | (.ok eTag, s3') =>
        let st1 : TransState := { st with s3keys := s3' }
        match env.verifyAfter with
        | .error _ => (.error (strL "failed to verify S3 upload"), st1)
        | .ok false => (.error (strL "failed to verify S3 upload"), st1)
        | .ok true =>
          let meta4 := transferMetaUpdate meta ts (bucket ++ strL "/" ++ s3Key) eTag
          (.ok (), { st1 with blobs := assocSet st1.blobs blobName meta4 })
    else (.error (strL "blob has not been validated or validation failed"), st)

/-- One message of `TransferWorker.processTransferQueue`: a failed transfer
is logged and skipped (message kept, nothing enqueued); a successful one
acknowledges the message and enqueues a cleanup message for the path. -/
def transferStep (env : S3Env) (bucket ts : Str) (acc : TransState × List Str)
    (msg : Str) : TransState × List Str :=
  match transferValidatedBlob env bucket ts acc.1 msg with
  | (.error _, st') => (st', acc.2)
  | (.ok _, st') => ({ st' with cleanupQ := st'.cleanupQ ++ [msg] }, acc.2 ++ [msg])

/-- `processTransferQueue` over a dequeued batch (second component collects
the acknowledged messages). -/
def processTransferQueue (env : S3Env) (bucket ts : Str) (st : TransState)
    (msgs : List Str) : TransState × List Str :=
  msgs.foldl (transferStep env bucket ts) (st, [])

/-! ## FTP ingest worker (src/unnamed/part_011, FTPWorker) -/

/-- `readMD5FromFile`: trim the companion file's text and take the first
whitespace-separated token (the trimmed text itself when there is none). -/
def readMD5FromFile (data : Str) : Str :=
  let hash := trimSpaceGo data
  match fieldsGo hash with
  | [] => hash
  | p :: _ => p

/-- The digest gate of `processFTPFiles` (lines 256-267): the payload is
admitted only when the computed hex digest is exactly equal (Go `!=`,
case-sensitively) to the digest parsed from the companion file. -/
def ftpDigestGate (md5Hex : Bytes → Str) (companion : Str) (payload : Bytes) : Bool :=
  let hash := readMD5FromFile companion
  let calculated := md5Hex payload
  calculated = hash

/-- The vessel-id derivation of `processFTPFiles` (lines 269-277): split on
"-EKI" and take the token before the first "." of the next piece; otherwise
split on "VESSEL" and take the token before the first "_" of the next
piece; otherwise "unknown". -/
def deriveVesselID (name : Str) : Str :=
  let ekiParts := goSplit name (strL "-EKI")
  if ekiParts.length > 1 then
    strL "EKI" ++ (goSplit (ekiParts.getD 1 []) (strL ".")).headD []
  else
    let vesselParts := goSplit name (strL "VESSEL")
    if vesselParts.length > 1 then
      strL "VESSEL" ++ (goSplit (vesselParts.getD 1 []) (strL "_")).headD []
    else strL "unknown"

/-- Is some nonempty digit run immediately followed by '.'?  Helper for the
spec's glob `*-EKI<digits>.*`. -/
def digitsThenDot (s : Str) : Bool :=
  let ds := s.takeWhile Char.isDigit
  !ds.isEmpty &&
    (match s.drop ds.length with
     | '.' :: _ => true
     | _ => false)

/-- The spec's glob `*-EKI<digits>.*` as a decidable matcher (claim C7's
stated rule): some occurrence of "-EKI" is followed by one or more digits
and then a '.'. -/
def matchesEKIPattern : Str → Bool
  | [] => false
  | c :: rest =>
    ((strL "-EKI").isPrefixOf (c :: rest) && digitsThenDot (List.drop 4 (c :: rest)))
      || matchesEKIPattern rest

/-! ## Worker runtime (src/unnamed/part_012, Worker) -/

/-- Observable events of one `Worker.process` call: an invocation of the
processing function (tagged with the 0-based attempt index) and an in-tick
backoff sleep (in seconds). -/
inductive PEvent
  | call (attempt : Nat)
  | sleep (seconds : Nat)
deriving DecidableEq, Repr

/-- The retry loop of `Worker.process`: `res i` is what the processing
function returns on attempt `i` (`none` for success).  Returns the event
trace and the status update (`some e` when the last attempt failed).
Arguments are the current attempt index and the attempts remaining. -/
def processLoop (res : Nat → Option Str) : Nat → Nat → List PEvent × Option Str
  | _, 0 => ([], none)
  | attempt, remaining+1 =>
    match res attempt with
    | none => ([PEvent.call attempt], none)
    | some msg =>
      if remaining = 0 then ([PEvent.call attempt], some (strL "error: " ++ msg))
      else
        let next := processLoop res (attempt+1) remaining
        (PEvent.call attempt :: PEvent.sleep (attempt+1) :: next.1, next.2)

/-- `Worker.process` with `retryCount` attempts. -/
def processGo (retryCount : Nat) (res : Nat → Option Str) :
    List PEvent × Option Str :=
  processLoop res 0 retryCount

/-- The trace claim C8 describes: attempts (all failing) separated by linear
backoff sleeps of `(attempt+1)` seconds, starting at attempt `start`. -/
def backoffTrace (start : Nat) : Nat → List PEvent
  | 0 => []
  | 1 => [PEvent.call start]
  | n+2 => PEvent.call start :: PEvent.sleep (start+1) :: backoffTrace (start+1) (n+1)

/-- Observable events of `Worker.run`: one `proc` per `process` call (with
its in-tick trace and status update) and a `tickWait` for each interval the
ticker waits between them. -/
inductive REvent
  | proc (events : List PEvent) (statusUpdate : Option Str)
  | tickWait
deriving DecidableEq, Repr

/-- `Worker.run` over a finite schedule of ticks: the first `process` call
happens immediately, then every elapsed interval yields a wait followed by
another `process` call, whatever the earlier outcomes were. -/
def runGo (retryCount : Nat) (ticks : List (Nat → Option Str)) : List REvent :=
  match ticks with
  | [] => []
  | r :: rest =>
    REvent.proc (processGo retryCount r).1 (processGo retryCount r).2 ::
      rest.flatMap (fun q =>
        [REvent.tickWait, REvent.proc (processGo retryCount q).1 (processGo retryCount q).2])

/-- Number of `process` invocations in a run trace. -/
def procCount : List REvent → Nat
  | [] => 0
  | REvent.proc _ _ :: rest => procCount rest + 1
  | REvent.tickWait :: rest => procCount rest

/-- Status effect of one tick on the worker's status string: `Worker.process`
writes `error: <msg>` exactly when the last attempt failed and leaves the
status untouched otherwise. -/
def tickStatus (retryCount : Nat) (res : Nat → Option Str) (status : Str) : Str :=
  match (processGo retryCount res).2 with
  | none => status
  | some e => e

/-- The operations that touch `Worker.status`: `Start` writes "running",
`Stop` writes "stopped", and a tick applies `tickStatus`. -/
inductive WOp
  | start
  | stop
  | tick (retryCount : Nat) (res : Nat → Option Str)

/-- One status transition. -/
def applyWOp (status : Str) : WOp → Str
  | .start => strL "running"
  | .stop => strL "stopped"
  | .tick rc res => tickStatus rc res status

/-- Status after a sequence of worker operations. -/
def statusAfter (status : Str) (ops : List WOp) : Str :=
  ops.foldl applyWOp status

/-! ## Witness fixtures -/

/-- Metadata of a transferred payload used as a concrete witness input. -/
def sampleMeta : Meta :=
  [(strL "transferstatus", strL "transferred"),
   (strL "s3destination", strL "bkt/V/data/f.bin")]

/-- A one-blob local store holding a transferred payload. -/
def sampleCleanState : CleanState :=
  { blobs := [(strL "V/f.bin", sampleMeta)], certs := [] }

/-- Result state of a successful cleanup of the sample store. -/
def sampleCleanResult : CleanState :=
  (cleanupBlob ⟨true, true⟩ (strL "t") sampleCleanState (strL "V/f.bin")).2

/-- Metadata that marks the payload transferred under a non-lowercase
casing of the key. -/
def caseMeta : Meta := [(strL "TransferStatus", strL "transferred")]

/-- A one-blob store whose payload is transferred, recorded under the
key casing "TransferStatus". -/
def caseCleanState : CleanState :=
  { blobs := [(strL "V/g.bin", caseMeta)], certs := [] }

/-- Remote-call outcomes of a fully successful upload (quoted ETag). -/
def sampleS3Env : S3Env :=
  { uploadErr := none
    etagRaw := some (strL "\x22e1\x22")
    verifyInUpload := .ok true
    verifyAfter := .ok true }

/-- A one-blob store holding a validated payload awaiting transfer. -/
def sampleTransState : TransState :=
  { blobs := [(strL "V1/d.bin",
      [(strL "validationstatus", strL "valid"), (strL "vesselid", strL "V1")])]
    s3keys := []
    cleanupQ := [] }

/-- Result state of a successful transfer of the sample payload. -/
def sampleTransResult : TransState :=
  (transferValidatedBlob sampleS3Env (strL "bkt") (strL "t") sampleTransState
    (strL "V1/d.bin")).2

/-- Remote-call outcomes of a failed upload. -/
def failS3Env : S3Env :=
  { uploadErr := some (strL "boom")
    etagRaw := none
    verifyInUpload := .ok true
    verifyAfter := .ok true }

/-! ## Theorems -/

theorem assocGet_assocSet_self {α : Type} (m : List (Str × α)) (k : Str) (v : α) :
    assocGet (assocSet m k v) k = some v := by
  induction m with
  | nil => simp [assocSet, assocGet]
  | cons hd tl ih =>
    obtain ⟨k', v'⟩ := hd
    by_cases h : k' = k
    · simp [assocSet, h, assocGet]
    · simp [assocSet, h, assocGet, ih]

theorem assocGet_assocSet_ne {α : Type} (m : List (Str × α)) (k k' : Str) (v : α)
    (h : k' ≠ k) : assocGet (assocSet m k v) k' = assocGet m k' := by
  induction m with
  | nil =>
    have hne : ¬ k = k' := fun hh => h hh.symm
    simp [assocSet, assocGet, hne]
  | cons hd tl ih =>
    obtain ⟨k0, v0⟩ := hd
    by_cases h0 : k0 = k
    · subst h0
      have hne : ¬ k0 = k' := fun hh => h hh.symm
      simp [assocSet, assocGet, hne]
    · by_cases h1 : k0 = k'
      · simp [assocSet, assocGet, h0, h1, h]
      · simp [assocSet, assocGet, h0, h1, ih]

theorem assocGet_assocRemove_self {α : Type} (m : List (Str × α)) (k : Str) :
    assocGet (assocRemove m k) k = none := by
  induction m with
  | nil => simp [assocRemove, assocGet]
  | cons hd tl ih =>
    obtain ⟨k', v'⟩ := hd
    by_cases h : k' = k
    · simp [assocRemove, h, ih]
    · simp [assocRemove, h, assocGet, ih]

/-- C1: for every cleanup attempt on a payload path (the queue path and the
retention-expiry scan both run `cleanupBlob`), the payload is deleted only
when its metadata holds transferstatus = "transferred" and a destruction
certificate referencing the path and its remote destination (or "unknown"
when absent) was written; when the transferred check or the certificate
write fails, `cleanupBlob` returns an error and the payload is not
deleted. -/
theorem c1_cleanup_delete_guard (env : CleanEnv) (now : Str) (st : CleanState)
    (blobName : Str) :
    (∀ st', cleanupBlob env now st blobName = (.ok (), st') →
      ∃ meta, assocGet st.blobs blobName = some meta ∧
        assocGet meta (strL "transferstatus") = some (strL "transferred") ∧
        env.certOk = true ∧
        mkAuditRecord now blobName
            ((assocGet meta (strL "s3destination")).getD (strL "unknown")) ∈ st'.certs ∧
        assocGet st'.blobs blobName = none) ∧
    (∀ e st', cleanupBlob env now st blobName = (.error e, st') →
      st'.blobs = st.blobs) := by
  obtain ⟨co, dok⟩ := env
  constructor
  · intro st' hok
    cases hmeta : assocGet st.blobs blobName with
    | none => simp [cleanupBlob, hmeta] at hok
    | some meta =>
      by_cases hts : (assocGet meta (strL "transferstatus")).getD [] = strL "transferred"
      · cases co with
        | false => simp [cleanupBlob, generateAuditCertificate, hmeta, hts] at hok
        | true =>
          cases dok with
          | false => simp [cleanupBlob, generateAuditCertificate, hmeta, hts] at hok
          | true =>
            simp only [cleanupBlob, generateAuditCertificate, hmeta, hts, if_true,
              if_pos, Except.ok.injEq, Prod.mk.injEq, true_and] at hok
            have hts' : assocGet meta (strL "transferstatus") = some (strL "transferred") := by
              cases hx : assocGet meta (strL "transferstatus") with
              | none =>
                rw [hx] at hts
                exact absurd hts (by decide)
              | some s =>
                rw [hx] at hts
                simp only [Option.getD_some] at hts
                rw [hts]
            refine ⟨meta, rfl, hts', rfl, ?_, ?_⟩
            · rw [← hok]
              simp
            · rw [← hok]
              simp [assocGet_assocRemove_self]
      · simp [cleanupBlob, hmeta, hts] at hok
  · intro e st' herr
    cases hmeta : assocGet st.blobs blobName with
    | none =>
      simp only [cleanupBlob, hmeta, Prod.mk.injEq] at herr
      rw [← herr.2]
    | some meta =>
      by_cases hts : (assocGet meta (strL "transferstatus")).getD [] = strL "transferred"
      · cases co with
        | false =>
          simp only [cleanupBlob, generateAuditCertificate, hmeta, hts, if_true,
            Bool.false_eq_true, if_false, Prod.mk.injEq] at herr
          rw [← herr.2]
        | true =>
          cases dok with
          | false =>
            simp only [cleanupBlob, generateAuditCertificate, hmeta, hts, if_true,
              Bool.false_eq_true, if_false, Prod.mk.injEq] at herr
            rw [← herr.2]
          | true =>
            simp [cleanupBlob, generateAuditCertificate, hmeta, hts] at herr
      · simp only [cleanupBlob, hmeta, hts, if_false, Prod.mk.injEq] at herr
        rw [← herr.2]

/-- Witness for C1: at a concrete transferred payload with both external
calls succeeding, the cleanup attempt does delete the payload. -/
theorem c1_cleanup_delete_guard_witness :
    assocGet sampleCleanResult.blobs (strL "V/f.bin") = none := by
  obtain ⟨meta, hmeta, hts, hc, hcert, hdel⟩ :=
    (c1_cleanup_delete_guard ⟨true, true⟩ (strL "t") sampleCleanState
      (strL "V/f.bin")).1 sampleCleanResult rfl
  exact hdel

/-- C5: metadata holding "transferred" under the key casing
"TransferStatus" fails the cleanup worker's transferred check: the queue
path ends in the "not transferred" error with the payload still present,
and the retention-scan path skips the blob, because both read only the
exact lowercase key "transferstatus" (a case-sensitive Go map access),
contrary to the claimed case-insensitive read. -/
theorem c5_case_sensitive_guard :
    (cleanupBlob ⟨true, true⟩ (strL "t") caseCleanState (strL "V/g.bin")).1 =
      .error (strL "blob has not been transferred yet") ∧
    (cleanupBlob ⟨true, true⟩ (strL "t") caseCleanState (strL "V/g.bin")).2 =
      caseCleanState ∧
    expiredScanStep ⟨true, true⟩ (strL "t") true caseCleanState (strL "V/g.bin") =
      caseCleanState :=
  ⟨rfl, rfl, rfl⟩

theorem assocGet_validation_writes (meta : Meta) (status ts : Str) :
    assocGet (assocSet (assocSet meta (strL "validationstatus") status)
        (strL "validationtimestamp") ts) (strL "validationstatus") = some status := by
  rw [assocGet_assocSet_ne _ _ _ _ (by decide), assocGet_assocSet_self]

theorem verifyChecksum_goDigest (md5Hex sha256Hex : Bytes → Str) (data : Bytes)
    (expected alg : Str) :
    verifyChecksum md5Hex sha256Hex data expected alg =
      match goDigest md5Hex sha256Hex alg data with
      | some d => .ok (eqFold d expected)
      | none => .error (strL "unsupported checksum algorithm: " ++ alg) := by
  unfold verifyChecksum goDigest
  by_cases h1 : goToUpper alg = strL "MD5"
  · rw [if_pos h1, if_pos h1]
  · rw [if_neg h1, if_neg h1]
    by_cases h2 : goToUpper alg = strL "SHA256"
    · rw [if_pos h2, if_pos h2]
    · rw [if_neg h2, if_neg h2]
      by_cases h3 : goToUpper alg = []
      · rw [if_pos h3, if_pos h3]
      · rw [if_neg h3, if_neg h3]

theorem validateBlob_of_checksum (md5Hex sha256Hex : Bytes → Str) (ts : Str)
    (meta : Meta) (data : Bytes) (expected : Str)
    (hc : checksumOf meta = some expected) :
    validateBlob md5Hex sha256Hex ts meta data =
      match goDigest md5Hex sha256Hex (algorithmOf meta) data with
      | some d =>
        .ok (eqFold d expected,
          assocSet (assocSet meta (strL "validationstatus")
              (if eqFold d expected then strL "valid" else strL "invalid"))
            (strL "validationtimestamp") ts)
      | none =>
        .error (strL "unsupported checksum algorithm: " ++ algorithmOf meta) := by
  unfold validateBlob
  rw [hc]
  simp only [verifyChecksum_goDigest]
  cases hd : goDigest md5Hex sha256Hex (algorithmOf meta) data <;> simp [hd]

/-- C2: `ValidateBlob` writes validationstatus = "valid" exactly when the
digest of the stored bytes under the metadata's algorithm (SHA256 when the
label is absent or empty) equals the stored checksum up to letter case; an
algorithm label other than MD5 and SHA256 (case-insensitively) yields an
error, and the error path performs no metadata write. -/
theorem c2_validation_truthful (md5Hex sha256Hex : Bytes → Str) (ts : Str)
    (meta : Meta) (data : Bytes) :
    (∀ b m', validateBlob md5Hex sha256Hex ts meta data = .ok (b, m') →
      ∃ expected d, checksumOf meta = some expected ∧
        goDigest md5Hex sha256Hex (algorithmOf meta) data = some d ∧
        (assocGet m' (strL "validationstatus") = some (strL "valid") ↔
          eqFold d expected = true)) ∧
    (∀ expected, checksumOf meta = some expected →
      goDigest md5Hex sha256Hex (algorithmOf meta) data = none →
      ∃ e, validateBlob md5Hex sha256Hex ts meta data = .error e) := by
  constructor
  · intro b m' hok
    cases hc : checksumOf meta with
    | none =>
      unfold validateBlob at hok
      rw [hc] at hok
      simp at hok
    | some expected =>
      rw [validateBlob_of_checksum md5Hex sha256Hex ts meta data expected hc] at hok
      cases hd : goDigest md5Hex sha256Hex (algorithmOf meta) data with
      | none => rw [hd] at hok; simp at hok
      | some d =>
        rw [hd] at hok
        simp only [Except.ok.injEq, Prod.mk.injEq] at hok
        refine ⟨expected, d, rfl, rfl, ?_⟩
        rw [← hok.2, assocGet_validation_writes]
        cases hb : eqFold d expected <;> simp [hb, strL]
  · intro expected hc hd
    refine ⟨strL "unsupported checksum algorithm: " ++ algorithmOf meta, ?_⟩
    rw [validateBlob_of_checksum md5Hex sha256Hex ts meta data expected hc, hd]

/-- Witness for C2: a concrete validation run whose MD5 digest matches the
stored checksum up to case ends with validationstatus = "valid". -/
theorem c2_validation_truthful_witness :
    assocGet [(strL "checksum", strL "AB"), (strL "checksumAlgorithm", strL "md5"),
        (strL "validationstatus", strL "valid"), (strL "validationtimestamp", strL "t")]
      (strL "validationstatus") = some (strL "valid") := by
  obtain ⟨expected, d, hc, hd, hiff⟩ :=
    (c2_validation_truthful (fun _ => strL "ab") (fun _ => strL "ff") (strL "t")
      [(strL "checksum", strL "AB"), (strL "checksumAlgorithm", strL "md5")] []).1
      true
      [(strL "checksum", strL "AB"), (strL "checksumAlgorithm", strL "md5"),
       (strL "validationstatus", strL "valid"), (strL "validationtimestamp", strL "t")]
      rfl
  have he : expected = strL "AB" := (Option.some.inj hc).symm
  have hdd : d = strL "ab" := (Option.some.inj hd).symm
  exact hiff.mpr (by rw [hdd, he]; decide)

/-- C6: for a dequeued validation message, a completed validation (with the
queue delete succeeding) acknowledges the message whatever the result and
enqueues a transfer message exactly when the result is valid; a validation
error leaves the message unacknowledged and enqueues nothing. -/
theorem c6_validation_queue_dispatch (vres : Except Str Bool) (st : VQState)
    (msg : Str) :
    (∀ b, vres = .ok b →
      validationQueueStep vres true st msg =
        { deleted := st.deleted ++ [msg],
          transferQ := if b then st.transferQ ++ [msg] else st.transferQ }) ∧
    (∀ e, vres = .error e → validationQueueStep vres true st msg = st) := by
  constructor
  · intro b hb
    subst hb
    cases b <;> simp [validationQueueStep]
  · intro e he
    subst he
    simp [validationQueueStep]

/-- Witness for C6: a concrete valid result acknowledges the message and
enqueues it for transfer. -/
theorem c6_validation_queue_dispatch_witness :
    validationQueueStep (.ok true) true ⟨[], []⟩ (strL "V/f.bin") =
      { deleted := [strL "V/f.bin"], transferQ := [strL "V/f.bin"] } := by
  have h := (c6_validation_queue_dispatch (.ok true) ⟨[], []⟩ (strL "V/f.bin")).1 true rfl
  simpa using h

theorem transferMetaUpdate_lookups (meta : Meta) (ts dest eTag : Str) :
    assocGet (transferMetaUpdate meta ts dest eTag) (strL "transferstatus") =
      some (strL "transferred") ∧
    assocGet (transferMetaUpdate meta ts dest eTag) (strL "transfertimestamp") =
      some ts ∧
    assocGet (transferMetaUpdate meta ts dest eTag) (strL "s3destination") =
      some dest ∧
    (eTag = [] → assocGet (transferMetaUpdate meta ts dest eTag) (strL "s3etag") =
      assocGet meta (strL "s3etag")) ∧
    (eTag ≠ [] → assocGet (transferMetaUpdate meta ts dest eTag) (strL "s3etag") =
      some eTag) := by
  simp only [transferMetaUpdate]
  by_cases he : eTag = []
  · rw [if_pos he]
    refine ⟨?_, ?_, ?_, fun _ => ?_, fun hne => absurd he hne⟩
    · rw [assocGet_assocSet_ne _ _ _ _ (by decide),
        assocGet_assocSet_ne _ _ _ _ (by decide), assocGet_assocSet_self]
    · rw [assocGet_assocSet_ne _ _ _ _ (by decide), assocGet_assocSet_self]
    · rw [assocGet_assocSet_self]
    · rw [assocGet_assocSet_ne _ _ _ _ (by decide),
        assocGet_assocSet_ne _ _ _ _ (by decide),
        assocGet_assocSet_ne _ _ _ _ (by decide)]
  · rw [if_neg he]
    refine ⟨?_, ?_, ?_, fun h0 => absurd h0 he, fun _ => ?_⟩
    · rw [assocGet_assocSet_ne _ _ _ _ (by decide),
        assocGet_assocSet_ne _ _ _ _ (by decide),
        assocGet_assocSet_ne _ _ _ _ (by decide), assocGet_assocSet_self]
    · rw [assocGet_assocSet_ne _ _ _ _ (by decide),
        assocGet_assocSet_ne _ _ _ _ (by decide), assocGet_assocSet_self]
    · rw [assocGet_assocSet_ne _ _ _ _ (by decide), assocGet_assocSet_self]
    · rw [assocGet_assocSet_self]

/-- C3: a transfer message whose payload completes transfer successfully
uploads to the remote key `<vesselId>/data/<filename>` (vessel from
metadata, else the first path segment) and updates the metadata with
transferstatus = "transferred", the transfer timestamp, s3destination =
`<bucket>/<key>`, and the quote-stripped remote ETag under "s3etag" (the
key is not written when the stripped ETag is empty); success moreover
implies the payload's validationstatus read "valid" at the precondition
check. -/
theorem c3_transfer_success (env : S3Env) (bucket ts : Str) (st : TransState)
    (blobName : Str) :
    ∀ st', transferValidatedBlob env bucket ts st blobName = (.ok (), st') →
      ∃ meta, assocGet st.blobs blobName = some meta ∧
        (assocGetFold meta (strL "validationstatus")).getD [] = strL "valid" ∧
        buildObjectKey (transferVessel meta blobName) (baseNameGo blobName)
          ∈ st'.s3keys ∧
        ∃ meta', assocGet st'.blobs blobName = some meta' ∧
          assocGet meta' (strL "transferstatus") = some (strL "transferred") ∧
          assocGet meta' (strL "transfertimestamp") = some ts ∧
          assocGet meta' (strL "s3destination") = some (bucket ++ strL "/" ++
            buildObjectKey (transferVessel meta blobName) (baseNameGo blobName)) ∧
          (envETag env = [] →
            assocGet meta' (strL "s3etag") = assocGet meta (strL "s3etag")) ∧
          (envETag env ≠ [] →
            assocGet meta' (strL "s3etag") = some (envETag env)) := by
  intro st' hok
  obtain ⟨upErr, etagRaw, v1, v2⟩ := env
  cases hmeta : assocGet st.blobs blobName with
  | none => simp [transferValidatedBlob, hmeta] at hok
  | some meta =>
    by_cases hval : (assocGetFold meta (strL "validationstatus")).getD [] = strL "valid"
    · cases upErr with
      | some e => simp [transferValidatedBlob, uploadObject, hmeta, hval] at hok
      | none =>
        cases v1 with
        | error e1 => simp [transferValidatedBlob, uploadObject, hmeta, hval] at hok
        | ok b1 =>
          cases b1 with
          | false => simp [transferValidatedBlob, uploadObject, hmeta, hval] at hok
          | true =>
            cases v2 with
            | error e2 => simp [transferValidatedBlob, uploadObject, hmeta, hval] at hok
            | ok b2 =>
              cases b2 with
              | false => simp [transferValidatedBlob, uploadObject, hmeta, hval] at hok
              | true =>
                simp only [transferValidatedBlob, uploadObject, hmeta, hval, if_true,
                  if_pos, Except.ok.injEq, Prod.mk.injEq, true_and] at hok
                obtain ⟨h1, h2, h3, h4, h5⟩ := transferMetaUpdate_lookups meta ts
                  (bucket ++ strL "/" ++
                    buildObjectKey (transferVessel meta blobName) (baseNameGo blobName))
                  (envETag ⟨none, etagRaw, .ok true, .ok true⟩)
                refine ⟨meta, rfl, hval, ?_, ?_⟩
                · rw [← hok]
                  by_cases hmem :
                    buildObjectKey (transferVessel meta blobName) (baseNameGo blobName)
                      ∈ st.s3keys
                  · simp [hmem]
                  · simp [hmem]
                · refine ⟨_, ?_, h1, h2, h3, h4, h5⟩
                  rw [← hok]
                  exact assocGet_assocSet_self _ _ _
    · simp [transferValidatedBlob, hmeta, hval] at hok

/-- Witness for C3: the sample transfer lands the object at
`V1/data/d.bin`. -/
theorem c3_transfer_success_witness :
    buildObjectKey (strL "V1") (strL "d.bin") ∈ sampleTransResult.s3keys := by
  obtain ⟨meta, hmeta, hval, hkey, meta', hm', h1, h2, h3, h4, h5⟩ :=
    c3_transfer_success sampleS3Env (strL "bkt") (strL "t") sampleTransState
      (strL "V1/d.bin") sampleTransResult rfl
  have hm : [(strL "validationstatus", strL "valid"), (strL "vesselid", strL "V1")]
      = meta := Option.some.inj hmeta
  rw [← hm] at hkey
  exact hkey

theorem transfer_ok_env (env : S3Env) (bucket ts : Str) (st : TransState)
    (blobName : Str) :
    (transferValidatedBlob env bucket ts st blobName).1 = .ok () →
      env.uploadErr = none ∧ env.verifyInUpload = .ok true ∧
        env.verifyAfter = .ok true := by
  intro hok
  obtain ⟨upErr, etagRaw, v1, v2⟩ := env
  cases hmeta : assocGet st.blobs blobName with
  | none => simp [transferValidatedBlob, hmeta] at hok
  | some meta =>
    by_cases hval : (assocGetFold meta (strL "validationstatus")).getD [] = strL "valid"
    · cases upErr with
      | some e => simp [transferValidatedBlob, uploadObject, hmeta, hval] at hok
      | none =>
        cases v1 with
        | error e1 => simp [transferValidatedBlob, uploadObject, hmeta, hval] at hok
        | ok b1 =>
          cases b1 with
          | false => simp [transferValidatedBlob, uploadObject, hmeta, hval] at hok
          | true =>
            cases v2 with
            | error e2 => simp [transferValidatedBlob, uploadObject, hmeta, hval] at hok
            | ok b2 =>
              cases b2 with
              | false => simp [transferValidatedBlob, uploadObject, hmeta, hval] at hok
              | true => exact ⟨rfl, rfl, rfl⟩
    · simp [transferValidatedBlob, hmeta, hval] at hok

theorem transfer_error_frame (env : S3Env) (bucket ts : Str) (st : TransState)
    (blobName : Str) (e : Str) :
    (transferValidatedBlob env bucket ts st blobName).1 = .error e →
      (transferValidatedBlob env bucket ts st blobName).2.blobs = st.blobs ∧
      (transferValidatedBlob env bucket ts st blobName).2.cleanupQ = st.cleanupQ := by
  intro herr
  obtain ⟨upErr, etagRaw, v1, v2⟩ := env
  cases hmeta : assocGet st.blobs blobName with
  | none => simp [transferValidatedBlob, hmeta]
  | some meta =>
    by_cases hval : (assocGetFold meta (strL "validationstatus")).getD [] = strL "valid"
    · cases upErr with
      | some e0 => simp [transferValidatedBlob, uploadObject, hmeta, hval]
      | none =>
        cases v1 with
        | error e1 => simp [transferValidatedBlob, uploadObject, hmeta, hval]
        | ok b1 =>
          cases b1 with
          | false => simp [transferValidatedBlob, uploadObject, hmeta, hval]
          | true =>
            cases v2 with
            | error e2 => simp [transferValidatedBlob, uploadObject, hmeta, hval]
            | ok b2 =>
              cases b2 with
              | false => simp [transferValidatedBlob, uploadObject, hmeta, hval]
              | true => simp [transferValidatedBlob, uploadObject, hmeta, hval] at herr
    · simp [transferValidatedBlob, hmeta, hval]

/-- C4: when the upload or either existence probe fails,
`TransferValidatedBlob` returns an error before any metadata write (the
blob store is unchanged), the queue message is not acknowledged by
`processTransferQueue`, and no cleanup message is enqueued. -/
theorem c4_transfer_failure (env : S3Env) (bucket ts : Str) (st : TransState)
    (deleted : List Str) (blobName : Str)
    (h : env.uploadErr ≠ none ∨ env.verifyInUpload ≠ .ok true ∨
      env.verifyAfter ≠ .ok true) :
    (∃ e, (transferValidatedBlob env bucket ts st blobName).1 = .error e) ∧
    (transferValidatedBlob env bucket ts st blobName).2.blobs = st.blobs ∧
    (transferValidatedBlob env bucket ts st blobName).2.cleanupQ = st.cleanupQ ∧
    transferStep env bucket ts (st, deleted) blobName =
      ((transferValidatedBlob env bucket ts st blobName).2, deleted) := by
  have herr : ∃ e, (transferValidatedBlob env bucket ts st blobName).1 = .error e := by
    cases hr : (transferValidatedBlob env bucket ts st blobName).1 with
    | error e => exact ⟨e, rfl⟩
    | ok u =>
      cases u
      obtain ⟨h1, h2, h3⟩ := transfer_ok_env env bucket ts st blobName hr
      rcases h with h | h | h
      · exact absurd h1 h
      · exact absurd h2 h
      · exact absurd h3 h
  obtain ⟨e, he⟩ := herr
  have hframe := transfer_error_frame env bucket ts st blobName e he
  refine ⟨⟨e, he⟩, hframe.1, hframe.2, ?_⟩
  have hpair : transferValidatedBlob env bucket ts st blobName =
      (.error e, (transferValidatedBlob env bucket ts st blobName).2) :=
    Prod.ext he rfl
  unfold transferStep
  rw [hpair]

/-- Witness for C4: a concrete failed upload leaves the payload's metadata
untouched. -/
theorem c4_transfer_failure_witness :
    (transferValidatedBlob failS3Env (strL "bkt") (strL "t") sampleTransState
      (strL "V1/d.bin")).2.blobs = sampleTransState.blobs := by
  have h := c4_transfer_failure failS3Env (strL "bkt") (strL "t") sampleTransState []
    (strL "V1/d.bin") (Or.inl (by simp [failS3Env]))
  exact h.2.1

/-- C7 counterexample: "x-EKIa.bin" neither matches the spec's glob
`*-EKI<digits>.*` (no digits follow "-EKI") nor contains "VESSEL", so the
claimed rule demands the vessel id "unknown"; the code returns "EKIa"
because it never checks for digits. -/
theorem c7_vessel_rule_counterexample :
    matchesEKIPattern (strL "x-EKIa.bin") = false ∧
    containsSub (strL "VESSEL") (strL "x-EKIa.bin") = false ∧
    deriveVesselID (strL "x-EKIa.bin") = strL "EKIa" ∧
    deriveVesselID (strL "x-EKIa.bin") ≠ strL "unknown" := by
  refine ⟨by decide, by decide, by decide, by decide⟩

/-- C7 amended: the ingest derivation takes whatever token (digits or not)
follows the first "-EKI" up to the next "." of that split piece, else the
token following the first "VESSEL" up to the next "_" of that piece, else
"unknown"; the spec's three examples still map to EKI0007, VESSEL002 and
unknown, and a name split by neither "-EKI" nor "VESSEL" is always
"unknown". -/
theorem c7_vessel_rule_amended :
    deriveVesselID (strL "something-EKI0007.bin") = strL "EKI0007" ∧
    deriveVesselID (strL "VESSEL002_log.bin") = strL "VESSEL002" ∧
    deriveVesselID (strL "random.bin") = strL "unknown" ∧
    deriveVesselID (strL "x-EKIa.bin") = strL "EKIa" ∧
    (∀ name : Str, (goSplit name (strL "-EKI")).length ≤ 1 →
      (goSplit name (strL "VESSEL")).length ≤ 1 →
      deriveVesselID name = strL "unknown") := by
  refine ⟨by decide, by decide, by decide, by decide, ?_⟩
  intro name h1 h2
  simp only [deriveVesselID]
  rw [if_neg (by omega), if_neg (by omega)]

/-- Witness for the amended C7 rule at a concrete unmatched name. -/
theorem c7_vessel_rule_amended_witness :
    deriveVesselID (strL "nope.bin") = strL "unknown" :=
  c7_vessel_rule_amended.2.2.2.2 (strL "nope.bin") (by decide) (by decide)

/-- C9 counterexample: with a digest engine returning "ab", a companion
digest "AB" — equal to the computed digest up to letter case — is rejected
by the ingest gate (the Go comparison is `!=`, case-sensitive), so the
payload is skipped rather than admitted. -/
theorem c9_ingest_case_counterexample :
    eqFold (strL "ab") (strL "AB") = true ∧
    ftpDigestGate (fun _ => strL "ab") (strL "AB") [] = false := by
  exact ⟨by decide, by decide⟩

/-- C9 amended: the ingest gate admits a payload exactly when the computed
digest is byte-for-byte equal to the first whitespace-delimited token of
the trimmed companion text; a digest differing only in letter case is
treated as a mismatch. -/
theorem c9_ingest_exact_match (md5Hex : Bytes → Str) (companion : Str)
    (payload : Bytes) :
    (ftpDigestGate md5Hex companion payload = true ↔
      md5Hex payload = readMD5FromFile companion) ∧
    readMD5FromFile (strL "  abc  d41d.bin\n") = strL "abc" := by
  constructor
  · simp [ftpDigestGate]
  · decide

/-- Witness for the amended C9 rule: an exactly matching companion token is
admitted. -/
theorem c9_ingest_exact_match_witness :
    ftpDigestGate (fun _ => strL "ab") (strL "ab  f.bin") [] = true :=
  ((c9_ingest_exact_match (fun _ => strL "ab") (strL "ab  f.bin") []).1).mpr (by decide)

theorem processLoop_allFail (res : Nat → Option Str) :
    ∀ remaining start, (∀ i, i < remaining → res (start + i) ≠ none) →
      (processLoop res start remaining).1 = backoffTrace start remaining ∧
      (∀ m, remaining ≠ 0 → res (start + remaining - 1) = some m →
        (processLoop res start remaining).2 = some (strL "error: " ++ m)) := by
  intro remaining
  induction remaining with
  | zero =>
    intro start h
    exact ⟨rfl, fun m h0 _ => absurd rfl h0⟩
  | succ n ih =>
    intro start h
    have h0 : res start ≠ none := by
      have := h 0 (Nat.succ_pos n)
      simpa using this
    cases hres : res start with
    | none => exact absurd hres h0
    | some msg =>
      cases n with
      | zero =>
        refine ⟨by simp [processLoop, hres, backoffTrace], ?_⟩
        intro m _ hm
        have hmm : msg = m := by
          rw [Nat.add_sub_cancel] at hm
          exact Option.some.inj (hres.symm.trans hm)
        simp [processLoop, hres, hmm]
      | succ k =>
        have hih := ih (start + 1) (by
          intro i hi
          have hcall := h (i + 1) (by omega)
          rw [show start + (i + 1) = start + 1 + i from by omega] at hcall
          exact hcall)
        constructor
        · show (processLoop res start (k + 1 + 1)).1 = backoffTrace start (k + 1 + 1)
          rw [show backoffTrace start (k + 1 + 1) = PEvent.call start ::
            PEvent.sleep (start + 1) :: backoffTrace (start + 1) (k + 1) from rfl]
          simp only [processLoop, hres]
          rw [if_neg (Nat.succ_ne_zero k)]
          simp only [List.cons.injEq, true_and]
          exact hih.1
        · intro m _ hm
          show (processLoop res start (k + 1 + 1)).2 = some (strL "error: " ++ m)
          simp only [processLoop, hres]
          rw [if_neg (Nat.succ_ne_zero k)]
          apply hih.2 m (Nat.succ_ne_zero k)
          rw [show start + 1 + (k + 1) - 1 = start + (k + 1 + 1) - 1 from by omega]
          exact hm

theorem procCount_flatMap (rc : Nat) (l : List (Nat → Option Str)) :
    procCount (l.flatMap (fun q =>
      [REvent.tickWait, REvent.proc (processGo rc q).1 (processGo rc q).2])) =
      l.length := by
  induction l with
  | nil => rfl
  | cons a l ih =>
    rw [List.flatMap_cons]
    rw [show ([REvent.tickWait, REvent.proc (processGo rc a).1 (processGo rc a).2] ++
        l.flatMap fun q =>
          [REvent.tickWait, REvent.proc (processGo rc q).1 (processGo rc q).2]) =
        REvent.tickWait :: REvent.proc (processGo rc a).1 (processGo rc a).2 ::
        (l.flatMap fun q =>
          [REvent.tickWait, REvent.proc (processGo rc q).1 (processGo rc q).2]) from rfl]
    simp only [procCount, List.length_cons]
    rw [ih]

/-- C8: within one tick the processing function is attempted up to
retryCount times with a sleep of (attempt+1) seconds between consecutive
attempts; when every attempt fails the tick's status update is "error: "
followed by the last failure message (a string starting with "error: "),
yet the run loop performs one process invocation per tick regardless of
outcomes, and the first invocation happens immediately, before any
interval wait. -/
theorem c8_retry_backoff_and_continue (rc : Nat) (res : Nat → Option Str)
    (m : Str) (ticks : List (Nat → Option Str)) :
    ((∀ i, i < rc → res i ≠ none) →
      (processGo rc res).1 = backoffTrace 0 rc ∧
      (rc ≠ 0 → res (rc - 1) = some m →
        (processGo rc res).2 = some (strL "error: " ++ m) ∧
        (strL "error: ").isPrefixOf (strL "error: " ++ m) = true)) ∧
    procCount (runGo rc ticks) = ticks.length ∧
    (∀ r rest, ticks = r :: rest →
      (runGo rc ticks).headD REvent.tickWait =
        REvent.proc (processGo rc r).1 (processGo rc r).2) := by
  refine ⟨?_, ?_, ?_⟩
  · intro hf
    have h := processLoop_allFail res rc 0 (by
      intro i hi
      simpa using hf i hi)
    refine ⟨h.1, fun h0 hm => ⟨h.2 m h0 (by simpa using hm), ?_⟩⟩
    exact List.isPrefixOf_iff_prefix.mpr (List.prefix_append _ _)
  · unfold runGo
    cases ticks with
    | nil => rfl
    | cons r rest =>
      simp only [procCount, procCount_flatMap rc rest, List.length_cons]
  · intro r rest ht
    subst ht
    rfl

/-- Witness for C8: two failing attempts produce call-sleep-call with a one
second backoff and the status update "error: x". -/
theorem c8_retry_backoff_and_continue_witness :
    (processGo 2 (fun _ => some (strL "x"))).1 =
      [PEvent.call 0, PEvent.sleep 1, PEvent.call 1] ∧
    (processGo 2 (fun _ => some (strL "x"))).2 = some (strL "error: x") := by
  have h := (c8_retry_backoff_and_continue 2 (fun _ => some (strL "x")) (strL "x")
    []).1 (fun i _ => by simp)
  refine ⟨?_, ?_⟩
  · rw [h.1]
    decide
  · exact (h.2 (by decide) rfl).1

/-- C10: once the worker's status holds an "error: <msg>" string, ticks
whose process call does not exhaust its retries (in particular successful
ticks) leave the status untouched — it is never reset to "running" by a
recovery — and only Stop ("stopped") or Start ("running") rewrite it. -/
theorem c10_error_status_sticky (e : Str) (ops : List WOp)
    (h : ∀ op ∈ ops, ∃ rc res, op = WOp.tick rc res ∧ (processGo rc res).2 = none) :
    statusAfter e ops = e ∧
    applyWOp e WOp.stop = strL "stopped" ∧
    applyWOp e WOp.start = strL "running" := by
  refine ⟨?_, rfl, rfl⟩
  induction ops with
  | nil => rfl
  | cons op rest ih =>
    obtain ⟨rc, res, hop, hnone⟩ := h op (List.mem_cons_self op rest)
    subst hop
    show statusAfter (applyWOp e (WOp.tick rc res)) rest = e
    have hkeep : applyWOp e (WOp.tick rc res) = e := by
      simp [applyWOp, tickStatus, hnone]
    rw [hkeep]
    exact ih (fun op' ho' => h op' (List.mem_cons_of_mem _ ho'))

/-- Witness for C10: a successful tick leaves a concrete error status in
place. -/
theorem c10_error_status_sticky_witness :
    statusAfter (strL "error: boom") [WOp.tick 3 (fun _ => none)] =
      strL "error: boom" :=
  (c10_error_status_sticky (strL "error: boom") [WOp.tick 3 (fun _ => none)]
    (by
      intro op hop
      simp only [List.mem_singleton] at hop
      subst hop
      exact ⟨3, fun _ => none, rfl, rfl⟩)).1
